import Mathlib

/-!
Star-Scan: the extraction pipeline of `src/FileUpload.js`

A shallow embedding of the React component `FileUpload`:

* `enhanceContrastAndSharpness` : the threshold loop over the RGBA buffer of the canvas;
* `handleExtractedText`         : OCR text to rows, one per line;
* `readerOnload` / `extractDataFromExcel` : workbook to rows and columns;
* `handleFileChange`            : dispatch on the media type and the updates of the
  component state (`fileData`, `columns`, `loading`, `error`).

JavaScript arrays may be sparse. `XLSX.utils.sheet_to_json(sheet, { header: 1 })` leaves a hole
at every blank cell of a row, and `Array.prototype.map` / `forEach` skip holes, so a row of cells
is a list of optional values where `none` is a hole.  Numbers are idealised as integers: the
code only ever tests a cell for truthiness and copies it.
-/

namespace StarScan

/-! ## JavaScript values, objects and arrays -/

/-- A primitive JavaScript value, as found in a cell of a parsed sheet. -/
inductive JSVal where
  | str (s : String)
  | num (n : Int)
  | bool (b : Bool)
  | null
  deriving DecidableEq, Repr

/-- JavaScript truthiness (`ToBoolean`), as used by the operator `||`. -/
def JSVal.truthy : JSVal → Bool
  | .str s => decide (s ≠ "")
  | .num n => decide (n ≠ 0)
  | .bool b => b
  | .null => false

/-- A plain JavaScript object with string keys, properties in insertion order. -/
abbrev Obj := List (String × JSVal)

/-- Assignment `obj[key] = value`: overwrite an existing property in place, else append. -/
def objSet : Obj → String → JSVal → Obj
  | [], key, value => [(key, value)]
  | (k, v) :: rest, key, value =>
    if k = key then (k, value) :: rest else (k, v) :: objSet rest key value

/-- Property read `obj[key]`; `none` stands for `undefined`. -/
def objGet : Obj → String → Option JSVal
  | [], _ => none
  | (k, v) :: rest, key => if k = key then some v else objGet rest key

/-- The own property names of an object (`Object.keys`). -/
def objKeys (obj : Obj) : List String := obj.map Prod.fst

/-- Object spread `{ ...target, ...source }` onto an object literal `target`. -/
def objSpread (target source : Obj) : Obj :=
  source.foldl (fun acc kv => objSet acc kv.1 kv.2) target

/-- A possibly sparse JavaScript array: `none` is a hole. -/
abbrev Sparse (α : Type) := List (Option α)

/-- The loop of `Array.prototype.map` from index `i` on: the callback runs on the elements that
are present and the holes stay holes. -/
def sparseMapFrom {α β : Type} (f : α → Nat → β) : Nat → Sparse α → Sparse β
  | _, [] => []
  | i, none :: rest => none :: sparseMapFrom f (i + 1) rest
  | i, some a :: rest => some (f a i) :: sparseMapFrom f (i + 1) rest

/-- The method `array.map((element, index) => ...)` on a sparse array. -/
def sparseMap {α β : Type} (f : α → Nat → β) (xs : Sparse α) : Sparse β :=
  sparseMapFrom f 0 xs

/-- The loop of `Array.prototype.forEach` from index `i` on, threading the variables the callback
assigns to; holes are skipped. -/
def sparseForEachFrom {α σ : Type} (f : σ → α → Nat → σ) : Nat → Sparse α → σ → σ
  | _, [], s => s
  | i, none :: rest, s => sparseForEachFrom f (i + 1) rest s
  | i, some a :: rest, s => sparseForEachFrom f (i + 1) rest (f s a i)

/-- The method `array.forEach((element, index) => ...)` on a sparse array. -/
def sparseForEach {α σ : Type} (f : σ → α → Nat → σ) (xs : Sparse α) (s : σ) : σ :=
  sparseForEachFrom f 0 xs s

/-- The loop of `forEach` over an array without holes, from index `i` on. -/
def forEachFrom {α σ : Type} (f : σ → α → Nat → σ) : Nat → List α → σ → σ
  | _, [], s => s
  | i, a :: rest, s => forEachFrom f (i + 1) rest (f s a i)

/-- The method `array.forEach((element, index) => ...)` on an array without holes. -/
def forEach {α σ : Type} (f : σ → α → Nat → σ) (xs : List α) (s : σ) : σ :=
  forEachFrom f 0 xs s

/-- The loop of `map` over an array without holes, from index `i` on. -/
def mapFrom {α β : Type} (f : α → Nat → β) : Nat → List α → List β
  | _, [] => []
  | i, a :: rest => f a i :: mapFrom f (i + 1) rest

/-- The method `array.map((element, index) => ...)` on an array without holes. -/
def arrayMap {α β : Type} (f : α → Nat → β) (xs : List α) : List β :=
  mapFrom f 0 xs

/-- The method `String.prototype.startsWith`. -/
def startsWith (s pre : String) : Bool :=
  pre.data.isPrefixOf s.data

/-- Search for `sub` at every position of `s`, left to right. -/
def includesChars (sub : List Char) : List Char → Bool
  | [] => sub.isPrefixOf []
  | c :: cs => sub.isPrefixOf (c :: cs) || includesChars sub cs

/-- The method `String.prototype.includes`. -/
def includes (s sub : String) : Bool :=
  includesChars sub.data s.data

/-- Splitting a sequence of characters at every occurrence of `sep`; the pieces between two
adjacent separators, before the first and after the last one are kept even when empty. -/
def splitChars (sep : Char) : List Char → List (List Char)
  | [] => [[]]
  | c :: cs =>
    if c = sep then [] :: splitChars sep cs
    else
      match splitChars sep cs with
      | [] => [[c]]
      | piece :: pieces => (c :: piece) :: pieces

/-- The method `text.split(sep)` for a separator of one character. -/
def split (text : String) (sep : Char) : List String :=
  (splitChars sep text.data).map String.mk

/-- The method `lines.join(sep)`. -/
def join (sep : String) : List String → String
  | [] => ""
  | [line] => line
  | line :: next :: rest => line ++ sep ++ join sep (next :: rest)

/-! ## Data model -/

/-- A column of the table: `{ Header, accessor }`. -/
structure ColumnDef where
  Header : JSVal
  accessor : String
  deriving DecidableEq, Repr

/-- The value `{ rows, columns }`.  An entry `none` of `columns` is `undefined`. -/
structure ExtractionResult where
  rows : List Obj
  columns : List (Option ColumnDef)
  deriving DecidableEq, Repr

/-- One row of `sheet_to_json(sheet, { header: 1 })`: a sparse array of cell values. -/
abbrev Row := Sparse JSVal

/-- The array of rows `sheet_to_json(sheet, { header: 1 })` returns for one sheet. -/
abbrev JsonSheet := List Row

/-- A parsed workbook: the sheets in the order of `workbook.SheetNames`, each as the array of
rows that `sheet_to_json` returns for it. -/
abbrev Workbook := List JsonSheet

/-! ## `enhanceContrastAndSharpness` -/

/-- The expression `data[k] > 128 ? 255 : 0`; a read past the end gives `undefined`, and
`undefined > 128` is false. -/
def threshold : Option Nat → Nat
  | some v => if v > 128 then 255 else 0
  | none => 0

/-- The loop `for (let i = 0; i < data.length; i += 4)` of `enhanceContrastAndSharpness`, entered
with the counter at `i`.  A write past the end of a typed array is ignored, as `List.set` does. -/
def enhanceLoop (data : List Nat) (i : Nat) : List Nat :=
  if i < data.length then
    let d1 := data.set i (threshold data[i]?)
    let d2 := d1.set (i + 1) (threshold d1[i + 1]?)
    let d3 := d2.set (i + 2) (threshold d2[i + 2]?)
    enhanceLoop d3 (i + 4)
  else data
termination_by data.length - i
decreasing_by simp only [List.length_set]; omega

/-- The function `enhanceContrastAndSharpness`, on the buffer `imageData.data` that it reads from
the canvas and writes back. -/
def enhanceContrastAndSharpness (data : List Nat) : List Nat :=
  enhanceLoop data 0

/-! ## `handleExtractedText` -/

/-- The component state held by the four `useState` hooks. -/
structure State where
  fileData : List Obj
  columns : List (Option ColumnDef)
  loading : Bool
  error : Option String
  deriving DecidableEq, Repr

/-- The rows `extractedText.split('\n').map((line, index) => ({ id: index, text: line }))`. -/
def textRows (extractedText : String) : List Obj :=
  arrayMap
    (fun (line : String) (index : Nat) =>
      ([("id", JSVal.num (Int.ofNat index)), ("text", JSVal.str line)] : Obj))
    (split extractedText '\n')

/-- The constant `columns` of `handleExtractedText`. -/
def textColumns : List (Option ColumnDef) :=
  [some { Header := .str "Line Number", accessor := "id" },
   some { Header := .str "Text", accessor := "text" }]

/-- The function `handleExtractedText`: it stores the rows and the two fixed columns. -/
def handleExtractedText (extractedText : String) (st : State) : State :=
  { st with fileData := textRows extractedText, columns := textColumns }

/-! ## `extractDataFromExcel` -/

/-- The template literal for a column accessor, "col" followed by the index. -/
def colAccessor (index : Nat) : String := "col" ++ toString index

/-- The template literal for a synthesized header, "Column " followed by the index plus one. -/
def columnLabel (index : Nat) : String := "Column " ++ toString (index + 1)

/-- The callback of `jsonSheet[0].map`: one column per header cell. -/
def headerColumn (header : JSVal) (index : Nat) : ColumnDef :=
  { Header := if header.truthy then header else .str (columnLabel index),
    accessor := colAccessor index }

/-- The object `rowObject` after `row.forEach((cell, colIndex) => ...)`. -/
def rowObject (row : Row) : Obj :=
  sparseForEach (fun obj cell colIndex => objSet obj (colAccessor colIndex) cell) row []

/-- The object literal `{ id: rowIndex, ...rowObject }`. -/
def dataRow (row : Row) (rowIndex : Nat) : Obj :=
  objSpread [("id", JSVal.num (Int.ofNat rowIndex))] (rowObject row)

/-- The two arrays `extractedRows` and `extractedColumns`. -/
structure Extracted where
  extractedRows : List Obj
  extractedColumns : List (Option ColumnDef)
  deriving DecidableEq, Repr

/-- The body of `workbook.SheetNames.forEach` for one sheet.  Spreading the mapped header row into
`push` turns each hole into `undefined`. -/
def processSheet (acc : Extracted) (jsonSheet : JsonSheet) : Extracted :=
  if jsonSheet.length > 0 then
    let columns := acc.extractedColumns ++ sparseMap headerColumn (jsonSheet.headD [])
    let rows :=
      forEach (fun rows row rowIndex => rows ++ [dataRow row rowIndex]) (jsonSheet.drop 1)
        acc.extractedRows
    { extractedRows := rows, extractedColumns := columns }
  else acc

/-- The handler `reader.onload` after `XLSX.read` has returned `workbook`: the value passed to
`resolve`. -/
def readerOnload (workbook : Workbook) : ExtractionResult :=
  let acc := forEach (fun acc jsonSheet _ => processSheet acc jsonSheet) workbook
    { extractedRows := [], extractedColumns := [] }
  { rows := acc.extractedRows, columns := acc.extractedColumns }

/-- The state in which an awaited promise is left. -/
inductive Promise (α : Type) where
  | resolved (value : α)
  | rejected
  | pending
  deriving DecidableEq, Repr

/-- What happens to the file handed to `reader.readAsArrayBuffer`. -/
inductive ReadOutcome where
  /-- The reader fires `onerror`. -/
  | readError
  /-- The reader fires `onload` and `XLSX.read` throws on the bytes. -/
  | parseThrows
  /-- The reader fires `onload` and `XLSX.read` returns the workbook. -/
  | parsed (workbook : Workbook)
  deriving DecidableEq, Repr

/-- The function `extractDataFromExcel`.  `reader.onerror` calls `reject`; `reader.onload` calls
`resolve` at its last line, so an exception thrown by `XLSX.read` inside that handler leaves the
promise unsettled: the handler has no `try`, and the exception of an event handler is not the
promise's. -/
def extractDataFromExcel : ReadOutcome → Promise ExtractionResult
  | .readError => .rejected
  | .parseThrows => .pending
  | .parsed workbook => .resolved (readerOnload workbook)

/-! ## `handleFileChange` -/

/-- The three arms of the `if` chain on `file.type`. -/
inductive Branch where
  | image
  | spreadsheet
  | unsupported
  deriving DecidableEq, Repr

/-- The conditions of the `if` / `else if` / `else` chain of `handleFileChange`. -/
def dispatch (type : String) : Branch :=
  if startsWith type "image/" then .image
  else if includes type "sheet" || includes type "excel" || includes type "spreadsheetml" then
    .spreadsheet
  else .unsupported

/-- The selected file with what its environment does with it. -/
structure File where
  /-- The declared media type `file.type`. -/
  type : String
  /-- The promise `preprocessImage(file)` up to `getImageData`: the RGBA buffer of the canvas
  after the grayscale draw, rejected when the image does not load. -/
  loadImage : Promise (List Nat)
  /-- The promise `Tesseract.recognize` makes of the binarized buffer. -/
  recognize : List Nat → Promise String
  /-- The outcome of reading the file as a workbook. -/
  read : ReadOutcome

/-- The function `preprocessImage`: load, draw, binarize, encode without loss. -/
def preprocessImage (file : File) : Promise (List Nat) :=
  match file.loadImage with
  | .resolved data => .resolved (enhanceContrastAndSharpness data)
  | .rejected => .rejected
  | .pending => .pending

/-- The function `extractTextFromImage`: `then` resolves with the text, `catch` rejects. -/
def extractTextFromImage (file : File) (imageBlob : List Nat) : Promise String :=
  file.recognize imageBlob

/-- The observable result of one call of `handleFileChange`. -/
structure Run where
  /-- The component state when the call has finished, or where it stays suspended. -/
  state : State
  /-- Whether the call ran to its end; `false` when it stays suspended at an `await`. -/
  finished : Bool
  /-- The message passed to `alert`, when `alert` was called. -/
  alert : Option String
  deriving DecidableEq, Repr

/-- The `catch` block followed by the `finally` block. -/
def caught (st : State) : Run :=
  { state := { st with error := some "Error extracting text from the file.", loading := false },
    finished := true, alert := none }

/-- The `finally` block after the `try` block has completed; `alert` is the message the `try`
block has passed to `alert`, if any. -/
def completed (st : State) (alert : Option String) : Run :=
  { state := { st with loading := false }, finished := true, alert := alert }

/-- An `await` on a promise that never settles: the call stops there. -/
def suspended (st : State) : Run :=
  { state := st, finished := false, alert := none }

/-- The function `handleFileChange` on `event.target.files[0]`. -/
def handleFileChange (st : State) (files0 : Option File) : Run :=
  match files0 with
  | none => { state := st, finished := true, alert := none }
  | some file =>
    let st := { st with loading := true, error := none }
    match dispatch file.type with
    | .image =>
      match preprocessImage file with
      | .pending => suspended st
      | .rejected => caught st
      | .resolved preprocessedImage =>
        match extractTextFromImage file preprocessedImage with
        | .pending => suspended st
        | .rejected => caught st
        | .resolved extractedText => completed (handleExtractedText extractedText st) none
    | .spreadsheet =>
      match extractDataFromExcel file.read with
      | .pending => suspended st
      | .rejected => caught st
      | .resolved extractedData =>
        completed { st with fileData := extractedData.rows, columns := extractedData.columns }
          none
    | .unsupported =>
      completed st (some "Unsupported file type. Please upload an image or Excel file.")

/-! ## Notions used to state the properties -/

/-- What the threshold loop is to do to the byte at position `j`: the alpha byte of a pixel, the
fourth of every four, is kept, and the other three become 255 above 128 and 0 otherwise. -/
def binarized (j v : Nat) : Nat :=
  if j % 4 = 3 then v else if v > 128 then 255 else 0

/-- Stated from the specification: line `i` of a text is what stands after its first `i` line
breaks, up to the next line break or the end. -/
def nthLine : Nat → List Char → List Char
  | 0, cs => cs.takeWhile (fun c => c != '\n')
  | i + 1, cs => nthLine i ((cs.dropWhile (fun c => c != '\n')).drop 1)

/-- The property `text` of a row, when it holds a string. -/
def rowText (row : Obj) : Option String :=
  match objGet row "text" with
  | some (.str s) => some s
  | _ => none

/-- The cells that are present in a sparse row from index `i` on, each with its position. -/
def cellsFrom : Nat → Row → List (Nat × JSVal)
  | _, [] => []
  | i, none :: rest => cellsFrom (i + 1) rest
  | i, some v :: rest => (i, v) :: cellsFrom (i + 1) rest

/-- The accessors of the columns of a result that are defined. -/
def accessors (columns : List (Option ColumnDef)) : List String :=
  (columns.filterMap id).map ColumnDef.accessor

/-- Stated from the specification: the column for the header cell at position `k`, with the
cell's own value as header when the cell is present and not empty, and the synthesized label
when it is missing or empty. -/
def claimedColumn (cell : Option JSVal) (k : Nat) : ColumnDef :=
  { Header :=
      match cell with
      | none => .str (columnLabel k)
      | some v => if v = .str "" ∨ v = .null then .str (columnLabel k) else v,
    accessor := colAccessor k }

/-- The digit that a decimal character stands for. -/
def digitValue (c : Char) : Nat := c.toNat - 48

/-- Reading a decimal numeral, most significant digit first, onto the value `acc`. -/
def readDecimal (acc : Nat) (ds : List Char) : Nat :=
  ds.foldl (fun acc c => acc * 10 + digitValue c) acc

/-! ## Binarization -/

theorem enhanceLoop_length (data : List Nat) (i : Nat) :
    (enhanceLoop data i).length = data.length := by
  induction data, i using enhanceLoop.induct with
  | case1 data i h d1 d2 d3 ih =>
    rw [enhanceLoop, if_pos h]
    simpa [d1, d2, d3] using ih
  | case2 data i h =>
    rw [enhanceLoop, if_neg h]

/-- One pass of the loop body writes the thresholded value at `i`, `i + 1`, `i + 2`. -/
theorem body_getElem? (data : List Nat) (i j : Nat) :
    (((data.set i (threshold data[i]?)).set (i + 1)
        (threshold (data.set i (threshold data[i]?))[i + 1]?)).set (i + 2)
        (threshold ((data.set i (threshold data[i]?)).set (i + 1)
          (threshold (data.set i (threshold data[i]?))[i + 1]?))[i + 2]?))[j]? =
      if i ≤ j ∧ j < i + 3 then (data[j]?).map (fun v => if v > 128 then 255 else 0)
      else data[j]? := by
  simp only [List.getElem?_set, List.length_set]
  by_cases hj : j < data.length
  · rcases (by omega : j < i ∨ j = i ∨ j = i + 1 ∨ j = i + 2 ∨ i + 3 ≤ j) with
      h | rfl | rfl | rfl | h
    · have h1 : ¬ i = j := by omega
      have h2 : ¬ i + 1 = j := by omega
      have h3 : ¬ i + 2 = j := by omega
      have h4 : ¬ (i ≤ j ∧ j < i + 3) := by omega
      simp [h1, h2, h3, h4]
    · simp [hj, threshold, List.getElem?_eq_getElem hj]
    · simp [hj, threshold, List.getElem?_eq_getElem hj]
    · simp [hj, threshold, List.getElem?_eq_getElem hj]
    · have h1 : ¬ i = j := by omega
      have h2 : ¬ i + 1 = j := by omega
      have h3 : ¬ i + 2 = j := by omega
      have h4 : ¬ (i ≤ j ∧ j < i + 3) := by omega
      simp [h1, h2, h3, h4]
  · have hn : data[j]? = none := List.getElem?_eq_none (Nat.le_of_not_lt hj)
    by_cases h1 : i = j
    · subst h1; simp [hj, hn]
    · by_cases h2 : i + 1 = j
      · subst h2; simp [hj, hn]
      · by_cases h3 : i + 2 = j
        · subst h3; simp [hj, hn]
        · simp [h1, h2, h3, hn]

theorem enhanceLoop_getElem? (data : List Nat) (i : Nat) (hi : i % 4 = 0) (j : Nat) :
    (enhanceLoop data i)[j]? = if j < i then data[j]? else (data[j]?).map (binarized j) := by
  induction data, i using enhanceLoop.induct with
  | case1 data i h d1 d2 d3 ih =>
    rw [enhanceLoop, if_pos h]
    have ih := ih (by omega)
    have hb := body_getElem? data i j
    simp only [d1, d2, d3] at ih
    rw [ih, hb]
    rcases (by omega : j < i ∨ (i ≤ j ∧ j < i + 3) ∨ j = i + 3 ∨ i + 4 ≤ j) with
      h0 | h0 | h0 | h0
    · have h1 : j < i + 4 := by omega
      have h2 : ¬ (i ≤ j ∧ j < i + 3) := by omega
      simp [h0, h1, h2]
    · have h1 : j < i + 4 := by omega
      have h2 : ¬ j < i := by omega
      have h3 : ¬ j % 4 = 3 := by omega
      simp only [h0, h1, h2, and_self, if_true, if_false]
      congr 1
      funext v
      simp [binarized, h3]
    · have h1 : j < i + 4 := by omega
      have h2 : ¬ j < i := by omega
      have h3 : j % 4 = 3 := by omega
      have h4 : ¬ (i ≤ j ∧ j < i + 3) := by omega
      simp only [h1, h2, h4, if_true, if_false]
      cases data[j]? with
      | none => rfl
      | some v => simp [binarized, h3]
    · have h1 : ¬ j < i + 4 := by omega
      have h2 : ¬ j < i := by omega
      have h4 : ¬ (i ≤ j ∧ j < i + 3) := by omega
      simp only [h1, h2, h4, if_false]
  | case2 data i h =>
    rw [enhanceLoop, if_neg h]
    by_cases h0 : j < i
    · simp [h0]
    · simp [h0, List.getElem?_eq_none (by omega : data.length ≤ j)]

/-! ## Splitting into lines -/

theorem splitChars_ne_nil (sep : Char) (cs : List Char) : splitChars sep cs ≠ [] := by
  cases cs with
  | nil => simp [splitChars]
  | cons c cs =>
    rw [splitChars]
    split
    · simp
    · split <;> simp

theorem splitChars_length (sep : Char) (cs : List Char) :
    (splitChars sep cs).length = cs.count sep + 1 := by
  induction cs with
  | nil => simp [splitChars]
  | cons c cs ih =>
    rw [splitChars]
    by_cases h : c = sep
    · subst h
      simp [ih]
    · rw [if_neg h]
      have hc : (c :: cs).count sep = cs.count sep := by
        rw [List.count_cons]
        simp [h]
      rw [hc, ← ih]
      cases hs : splitChars sep cs with
      | nil => exact absurd hs (splitChars_ne_nil sep cs)
      | cons piece pieces => simp

theorem splitChars_getElem? (cs : List Char) (i : Nat) :
    (splitChars '\n' cs)[i]? = if i ≤ cs.count '\n' then some (nthLine i cs) else none := by
  induction cs generalizing i with
  | nil =>
    cases i with
    | zero => simp [splitChars, nthLine]
    | succ i => simp [splitChars]
  | cons c cs ih =>
    rw [splitChars]
    by_cases h : c = '\n'
    · subst h
      cases i with
      | zero => simp [nthLine]
      | succ i => simp [nthLine, ih i]
    · rw [if_neg h]
      have hc : (c :: cs).count '\n' = cs.count '\n' := by
        rw [List.count_cons]
        simp [h]
      have hb : (c != '\n') = true := by simpa using h
      rw [hc]
      cases hs : splitChars '\n' cs with
      | nil => exact absurd hs (splitChars_ne_nil _ cs)
      | cons piece pieces =>
        cases i with
        | zero =>
          have h0 := ih 0
          rw [hs] at h0
          simp only [List.getElem?_cons_zero, Nat.zero_le, if_true, Option.some.injEq] at h0
          simp [nthLine, List.takeWhile_cons, hb, h0]
        | succ i =>
          have h1 := ih (i + 1)
          rw [hs] at h1
          simp only [List.getElem?_cons_succ] at h1 ⊢
          rw [h1]
          simp [nthLine, List.dropWhile_cons, hb]

theorem join_cons_char (sep : String) (c : Char) (piece : List Char) (rest : List String) :
    join sep (String.mk (c :: piece) :: rest)
      = String.mk (c :: (join sep (String.mk piece :: rest)).data) := by
  cases rest with
  | nil => simp [join]
  | cons next rest =>
    simp only [join]
    apply String.ext
    simp [String.data_append]

theorem join_splitChars (sep : Char) (cs : List Char) :
    join (String.singleton sep) ((splitChars sep cs).map String.mk) = String.mk cs := by
  induction cs with
  | nil => simp [splitChars, join]
  | cons c cs ih =>
    rw [splitChars]
    by_cases h : c = sep
    · subst h
      rw [if_pos rfl]
      cases hs : splitChars c cs with
      | nil => exact absurd hs (splitChars_ne_nil _ cs)
      | cons piece pieces =>
        rw [hs] at ih
        simp only [List.map_cons, join] at ih ⊢
        rw [ih]
        apply String.ext
        simp [String.data_append, String.singleton]
    · rw [if_neg h]
      cases hs : splitChars sep cs with
      | nil => exact absurd hs (splitChars_ne_nil _ cs)
      | cons piece pieces =>
        rw [hs] at ih
        simp only [List.map_cons] at ih ⊢
        rw [join_cons_char, ih]

theorem mapFrom_length {α β : Type} (f : α → Nat → β) (i : Nat) (xs : List α) :
    (mapFrom f i xs).length = xs.length := by
  induction xs generalizing i with
  | nil => rfl
  | cons a rest ih => simp [mapFrom, ih]

theorem mapFrom_getElem? {α β : Type} (f : α → Nat → β) (i : Nat) (xs : List α) (j : Nat) :
    (mapFrom f i xs)[j]? = (xs[j]?).map (fun a => f a (i + j)) := by
  induction xs generalizing i j with
  | nil => simp [mapFrom]
  | cons a rest ih =>
    cases j with
    | zero => simp [mapFrom]
    | succ j =>
      simp only [mapFrom, List.getElem?_cons_succ, ih]
      congr 1
      funext a
      congr 1
      omega

/-! ## Template literals -/

theorem digitValue_digitChar (d : Nat) (h : d < 10) : digitValue (Nat.digitChar d) = d := by
  interval_cases d <;> rfl

theorem readDecimal_toDigitsCore (fuel n : Nat) (ds : List Char) (h : n < fuel) :
    readDecimal 0 (Nat.toDigitsCore 10 fuel n ds) = readDecimal n ds := by
  induction fuel generalizing n ds with
  | zero => omega
  | succ fuel ih =>
    rw [Nat.toDigitsCore]
    have hd : digitValue (Nat.digitChar (n % 10)) = n % 10 :=
      digitValue_digitChar _ (Nat.mod_lt _ (by decide))
    by_cases h0 : n / 10 = 0
    · simp only [h0, if_true]
      have hn : n % 10 = n := by omega
      rw [hn] at hd
      simp only [readDecimal, List.foldl_cons, Nat.zero_mul, Nat.zero_add, hn, hd]
    · simp only [h0, if_false]
      rw [ih (n / 10) _ (by omega)]
      have hn : n / 10 * 10 + n % 10 = n := by omega
      simp only [readDecimal, List.foldl_cons, hd, hn]

theorem toString_nat_injective (a b : Nat) (h : toString a = toString b) : a = b := by
  have h1 : Nat.toDigits 10 a = Nat.toDigits 10 b := by
    have := congrArg String.data h
    exact this
  have ha := readDecimal_toDigitsCore (a + 1) a [] (by omega)
  have hb := readDecimal_toDigitsCore (b + 1) b [] (by omega)
  simp only [Nat.toDigits] at h1
  rw [h1, hb] at ha
  simpa [readDecimal] using ha.symm

theorem colAccessor_injective (a b : Nat) (h : colAccessor a = colAccessor b) : a = b := by
  apply toString_nat_injective
  have h1 := congrArg String.data h
  simp only [colAccessor, String.data_append] at h1
  exact String.ext (List.append_cancel_left h1)

theorem colAccessor_ne_id (c : Nat) : colAccessor c ≠ "id" := by
  intro h
  have h1 := congrArg String.data h
  simp only [colAccessor, String.data_append] at h1
  simp at h1

/-! ## Objects -/

theorem objSet_of_not_mem (obj : Obj) (key : String) (value : JSVal)
    (h : key ∉ objKeys obj) : objSet obj key value = obj ++ [(key, value)] := by
  induction obj with
  | nil => rfl
  | cons kv rest ih =>
    obtain ⟨k, v⟩ := kv
    simp only [objKeys, List.map_cons, List.mem_cons, not_or] at h
    have hk : ¬ k = key := fun e => h.1 e.symm
    simp only [objSet, if_neg hk, List.cons_append]
    rw [ih h.2]

theorem objSpread_of_nodup (target source : Obj)
    (h : (objKeys target ++ objKeys source).Nodup) : objSpread target source = target ++ source := by
  induction source generalizing target with
  | nil => simp [objSpread]
  | cons kv rest ih =>
    obtain ⟨k, v⟩ := kv
    have hk : k ∉ objKeys target := by
      intro hmem
      have := List.nodup_append.mp h
      exact this.2.2 hmem (by simp [objKeys])
    have hstep : objSet target k v = target ++ [(k, v)] := objSet_of_not_mem target k v hk
    have hn : (objKeys (target ++ [(k, v)]) ++ objKeys rest).Nodup := by
      simpa [objKeys, List.append_assoc] using h
    have := ih (target ++ [(k, v)]) hn
    simp only [objSpread, List.foldl_cons] at this ⊢
    rw [hstep, this]
    simp

/-! ## Rows of a sheet -/

theorem cellsFrom_fst_ge (i : Nat) (row : Row) : ∀ p ∈ cellsFrom i row, i ≤ p.1 := by
  induction row generalizing i with
  | nil => simp [cellsFrom]
  | cons cell rest ih =>
    cases cell with
    | none =>
      intro p hp
      have := ih (i + 1) p (by simpa [cellsFrom] using hp)
      omega
    | some v =>
      intro p hp
      simp only [cellsFrom, List.mem_cons] at hp
      rcases hp with rfl | hp
      · exact Nat.le_refl _
      · have := ih (i + 1) p hp
        omega

theorem cellsFrom_mem (i : Nat) (row : Row) (c : Nat) (v : JSVal) :
    (i + c, v) ∈ cellsFrom i row ↔ row[c]? = some (some v) := by
  induction row generalizing i c with
  | nil => simp [cellsFrom]
  | cons cell rest ih =>
    cases c with
    | zero =>
      cases cell with
      | none =>
        simp only [cellsFrom, Nat.add_zero, List.getElem?_cons_zero]
        constructor
        · intro h
          have := cellsFrom_fst_ge (i + 1) rest _ h
          simp at this
        · intro h
          simp at h
      | some w =>
        simp only [cellsFrom, Nat.add_zero, List.getElem?_cons_zero, List.mem_cons,
          Prod.mk.injEq, true_and, Option.some.injEq]
        constructor
        · rintro (h | h)
          · exact h.symm
          · have := cellsFrom_fst_ge (i + 1) rest _ h
            simp at this
        · intro h
          exact Or.inl h.symm
    | succ c =>
      have hshift : i + (c + 1) = i + 1 + c := by omega
      cases cell with
      | none =>
        simp only [cellsFrom, List.getElem?_cons_succ, hshift]
        exact ih (i + 1) c
      | some w =>
        simp only [cellsFrom, List.getElem?_cons_succ, hshift, List.mem_cons, Prod.mk.injEq]
        constructor
        · rintro (h | h)
          · omega
          · exact (ih (i + 1) c).mp h
        · intro h
          exact Or.inr ((ih (i + 1) c).mpr h)

theorem cellsFrom_keys_nodup (i : Nat) (row : Row) :
    ((cellsFrom i row).map (fun p => colAccessor p.1)).Nodup := by
  induction row generalizing i with
  | nil => simp [cellsFrom]
  | cons cell rest ih =>
    cases cell with
    | none => simpa [cellsFrom] using ih (i + 1)
    | some v =>
      simp only [cellsFrom, List.map_cons, List.nodup_cons]
      refine ⟨?_, ih (i + 1)⟩
      intro hmem
      obtain ⟨p, hp, he⟩ := List.mem_map.mp hmem
      have h1 := cellsFrom_fst_ge (i + 1) rest p hp
      have h2 := colAccessor_injective _ _ he
      omega

theorem sparseForEachFrom_rowObject (i : Nat) (row : Row) (obj : Obj)
    (h : ∀ c, i ≤ c → colAccessor c ∉ objKeys obj) :
    sparseForEachFrom (fun obj cell colIndex => objSet obj (colAccessor colIndex) cell) i row obj
      = obj ++ (cellsFrom i row).map (fun p => (colAccessor p.1, p.2)) := by
  induction row generalizing i obj with
  | nil => simp [sparseForEachFrom, cellsFrom]
  | cons cell rest ih =>
    cases cell with
    | none =>
      simp only [sparseForEachFrom, cellsFrom]
      exact ih (i + 1) obj (fun c hc => h c (by omega))
    | some v =>
      simp only [sparseForEachFrom, cellsFrom, List.map_cons]
      rw [objSet_of_not_mem obj _ v (h i (Nat.le_refl i))]
      rw [ih (i + 1)]
      · simp
      · intro c hc hmem
        simp only [objKeys, List.map_append, List.map_cons, List.map_nil, List.mem_append,
          List.mem_singleton] at hmem
        rcases hmem with hmem | hmem
        · exact h c (by omega) hmem
        · have := colAccessor_injective _ _ hmem
          omega

theorem rowObject_eq (row : Row) :
    rowObject row = (cellsFrom 0 row).map (fun p => (colAccessor p.1, p.2)) := by
  have := sparseForEachFrom_rowObject 0 row [] (by simp [objKeys])
  simpa [rowObject, sparseForEach] using this

theorem dataRow_eq (row : Row) (rowIndex : Nat) :
    dataRow row rowIndex = ("id", JSVal.num (Int.ofNat rowIndex)) ::
      (cellsFrom 0 row).map (fun p => (colAccessor p.1, p.2)) := by
  rw [dataRow, rowObject_eq, objSpread_of_nodup]
  · rfl
  · simp only [objKeys, List.map_cons, List.map_nil, List.map_map, List.singleton_append,
      List.nodup_cons]
    refine ⟨?_, cellsFrom_keys_nodup 0 row⟩
    intro hmem
    obtain ⟨p, _, he⟩ := List.mem_map.mp hmem
    exact colAccessor_ne_id p.1 he

theorem objGet_of_not_mem (obj : Obj) (key : String) (h : key ∉ objKeys obj) :
    objGet obj key = none := by
  induction obj with
  | nil => rfl
  | cons kv rest ih =>
    obtain ⟨k, v⟩ := kv
    simp only [objKeys, List.map_cons, List.mem_cons, not_or] at h
    have hk : ¬ k = key := fun e => h.1 e.symm
    simp only [objGet, if_neg hk]
    exact ih h.2

theorem objGet_cellsFrom (i : Nat) (row : Row) (c : Nat) :
    objGet ((cellsFrom i row).map (fun p => (colAccessor p.1, p.2))) (colAccessor (i + c))
      = (row[c]?).join := by
  induction row generalizing i c with
  | nil => simp [cellsFrom, objGet, Option.join]
  | cons cell rest ih =>
    have hfar : colAccessor i ∉
        objKeys ((cellsFrom (i + 1) rest).map (fun p => (colAccessor p.1, p.2))) := by
      intro hmem
      simp only [objKeys, List.map_map] at hmem
      obtain ⟨p, hp, he⟩ := List.mem_map.mp hmem
      have h1 := cellsFrom_fst_ge (i + 1) rest p hp
      have h2 := colAccessor_injective _ _ he
      simp only [Function.comp] at h2
      omega
    cases cell with
    | none =>
      cases c with
      | zero =>
        simp only [cellsFrom, Nat.add_zero, List.getElem?_cons_zero, Option.join]
        exact objGet_of_not_mem _ _ hfar
      | succ c =>
        have hshift : i + (c + 1) = i + 1 + c := by omega
        simp only [cellsFrom, List.getElem?_cons_succ]
        rw [hshift]
        exact ih (i + 1) c
    | some v =>
      cases c with
      | zero => simp [cellsFrom, objGet, Option.join]
      | succ c =>
        have hne : ¬ colAccessor i = colAccessor (i + (c + 1)) := by
          intro e
          have := colAccessor_injective _ _ e
          omega
        have hshift : i + (c + 1) = i + 1 + c := by omega
        simp only [cellsFrom, List.map_cons, objGet, if_neg hne, List.getElem?_cons_succ]
        rw [hshift]
        exact ih (i + 1) c

/-! ## Sheets and workbooks -/

theorem sparseMapFrom_length {α β : Type} (f : α → Nat → β) (i : Nat) (xs : Sparse α) :
    (sparseMapFrom f i xs).length = xs.length := by
  induction xs generalizing i with
  | nil => rfl
  | cons a rest ih => cases a <;> simp [sparseMapFrom, ih]

theorem sparseMapFrom_getElem? {α β : Type} (f : α → Nat → β) (i : Nat) (xs : Sparse α)
    (j : Nat) :
    (sparseMapFrom f i xs)[j]? = (xs[j]?).map (Option.map (fun a => f a (i + j))) := by
  induction xs generalizing i j with
  | nil => simp [sparseMapFrom]
  | cons a rest ih =>
    cases j with
    | zero => cases a <;> simp [sparseMapFrom]
    | succ j =>
      have hshift : i + 1 + j = i + (j + 1) := by omega
      cases a <;> simp [sparseMapFrom, ih, hshift]

theorem accessors_sparseMapFrom (i : Nat) (hdr : Row) :
    accessors (sparseMapFrom headerColumn i hdr)
      = (cellsFrom i hdr).map (fun p => colAccessor p.1) := by
  induction hdr generalizing i with
  | nil => rfl
  | cons cell rest ih =>
    have ih1 := ih (i + 1)
    simp only [accessors] at ih1 ⊢
    cases cell with
    | none => simpa [sparseMapFrom, cellsFrom] using ih1
    | some v => simpa [sparseMapFrom, cellsFrom, headerColumn] using ih1

theorem accessors_append (xs ys : List (Option ColumnDef)) :
    accessors (xs ++ ys) = accessors xs ++ accessors ys := by
  simp [accessors]

theorem mem_accessors_flatMap (workbook : Workbook) (f : JsonSheet → List (Option ColumnDef))
    (key : String) (sheet : JsonSheet) (hs : sheet ∈ workbook) (hk : key ∈ accessors (f sheet)) :
    key ∈ accessors (workbook.flatMap f) := by
  induction workbook with
  | nil => simp at hs
  | cons first rest ih =>
    rw [List.flatMap_cons, accessors_append, List.mem_append]
    rcases List.mem_cons.mp hs with e | hmem
    · subst e
      exact Or.inl hk
    · exact Or.inr (ih hmem)

theorem mem_mapFrom {α β : Type} (f : α → Nat → β) (i : Nat) (xs : List α) (b : β)
    (h : b ∈ mapFrom f i xs) : ∃ a ∈ xs, ∃ j, b = f a j := by
  induction xs generalizing i with
  | nil => simp [mapFrom] at h
  | cons a rest ih =>
    simp only [mapFrom, List.mem_cons] at h
    rcases h with h | h
    · exact ⟨a, by simp, i, h⟩
    · obtain ⟨a1, ha1, j, hj⟩ := ih (i + 1) h
      exact ⟨a1, by simp [ha1], j, hj⟩

theorem forEachFrom_push {α β : Type} (g : α → Nat → β) (i : Nat) (xs : List α) (acc : List β) :
    forEachFrom (fun rows row rowIndex => rows ++ [g row rowIndex]) i xs acc
      = acc ++ mapFrom g i xs := by
  induction xs generalizing i acc with
  | nil => simp [forEachFrom, mapFrom]
  | cons a rest ih => simp [forEachFrom, mapFrom, ih]

theorem processSheet_eq (acc : Extracted) (jsonSheet : JsonSheet) :
    processSheet acc jsonSheet =
      { extractedRows := acc.extractedRows ++ arrayMap dataRow (jsonSheet.drop 1),
        extractedColumns := acc.extractedColumns ++ sparseMap headerColumn (jsonSheet.headD []) }
    := by
  cases jsonSheet with
  | nil => simp [processSheet, arrayMap, mapFrom, sparseMap, sparseMapFrom]
  | cons hdr rest => simp [processSheet, forEach, forEachFrom_push, arrayMap]

theorem forEachFrom_processSheet (i : Nat) (workbook : Workbook) (acc : Extracted) :
    forEachFrom (fun acc jsonSheet _ => processSheet acc jsonSheet) i workbook acc =
      { extractedRows :=
          acc.extractedRows ++ workbook.flatMap (fun sheet => arrayMap dataRow (sheet.drop 1)),
        extractedColumns :=
          acc.extractedColumns ++
            workbook.flatMap (fun sheet => sparseMap headerColumn (sheet.headD [])) } := by
  induction workbook generalizing i acc with
  | nil => simp [forEachFrom]
  | cons sheet rest ih =>
    rw [forEachFrom, ih, processSheet_eq]
    simp [List.flatMap_cons, List.append_assoc]

theorem readerOnload_rows (workbook : Workbook) :
    (readerOnload workbook).rows
      = workbook.flatMap (fun sheet => arrayMap dataRow (sheet.drop 1)) := by
  simp [readerOnload, forEach, forEachFrom_processSheet]

theorem readerOnload_columns (workbook : Workbook) :
    (readerOnload workbook).columns
      = workbook.flatMap (fun sheet => sparseMap headerColumn (sheet.headD [])) := by
  simp [readerOnload, forEach, forEachFrom_processSheet]

/-- C3: `enhanceContrastAndSharpness` keeps the length of the buffer; at every position the output
byte is the input byte when it is an alpha byte (position 3 modulo 4), and otherwise 255 when the
input byte is strictly greater than 128 and 0 when it is not; so 128 gives 0 and 129 gives 255. -/
theorem C3_enhanceContrastAndSharpness (data : List Nat) :
    (enhanceContrastAndSharpness data).length = data.length ∧
    (∀ j, (enhanceContrastAndSharpness data)[j]? =
      (data[j]?).map (fun v => if j % 4 = 3 then v else if v > 128 then 255 else 0)) ∧
    (∀ j v, j % 4 ≠ 3 → (enhanceContrastAndSharpness data)[j]? = some v → v = 0 ∨ v = 255) ∧
    enhanceContrastAndSharpness [128, 129, 128, 128, 129, 128, 129, 129] =
      [0, 255, 0, 128, 255, 0, 255, 129] := by
  have key : ∀ j, (enhanceContrastAndSharpness data)[j]? =
      (data[j]?).map (fun v => if j % 4 = 3 then v else if v > 128 then 255 else 0) := by
    intro j
    rw [enhanceContrastAndSharpness, enhanceLoop_getElem? data 0 rfl j, if_neg (Nat.not_lt_zero j)]
    rfl
  refine ⟨enhanceLoop_length data 0, key, ?_, ?_⟩
  · intro j v hj hv
    rw [key j] at hv
    cases hd : data[j]? with
    | none => simp [hd] at hv
    | some w =>
      simp only [hd, Option.map_some', if_neg hj, Option.some.injEq] at hv
      by_cases hw : w > 128
      · right; simpa [hw] using hv.symm
      · left; simpa [hw] using hv.symm
  · simp [enhanceContrastAndSharpness, enhanceLoop, threshold]

theorem filterMap_rowText_mapFrom (i : Nat) (lines : List String) :
    (mapFrom (fun (line : String) (index : Nat) =>
        ([("id", JSVal.num (Int.ofNat index)), ("text", JSVal.str line)] : Obj)) i lines).filterMap
      rowText = lines := by
  induction lines generalizing i with
  | nil => rfl
  | cons line rest ih =>
    have h : rowText [("id", JSVal.num (Int.ofNat i)), ("text", JSVal.str line)] = some line := by
      simp [rowText, objGet]
    rw [mapFrom, List.filterMap_cons, h, ih]

/-- C4: joining the `text` of the rows stored by `handleExtractedText`, in row order, with the
line break gives back the raw text, and every row has such a `text`. -/
theorem C4_join_text_roundtrip (extractedText : String) (st : State) :
    join "\n" ((handleExtractedText extractedText st).fileData.filterMap rowText)
      = extractedText ∧
    ((handleExtractedText extractedText st).fileData.filterMap rowText).length
      = (handleExtractedText extractedText st).fileData.length := by
  have h : (handleExtractedText extractedText st).fileData.filterMap rowText
      = split extractedText '\n' := by
    simp only [handleExtractedText, textRows, arrayMap]
    exact filterMap_rowText_mapFrom 0 _
  rw [h]
  constructor
  · exact join_splitChars '\n' extractedText.data
  · simp [handleExtractedText, textRows, arrayMap, mapFrom_length]

/-- C5: `handleExtractedText` stores one row per line, that is one more than the number of line
breaks; row `i` is `{ id: i, text: line i }` with the line taken as it is, blank or not; the
columns are the fixed pair; `loading` and `error` are not touched. -/
theorem C5_one_row_per_line (extractedText : String) (st : State) :
    (handleExtractedText extractedText st).fileData.length
      = extractedText.data.count '\n' + 1 ∧
    (∀ i, (handleExtractedText extractedText st).fileData[i]? =
      if i ≤ extractedText.data.count '\n' then
        some [("id", JSVal.num (Int.ofNat i)),
              ("text", JSVal.str (String.mk (nthLine i extractedText.data)))]
      else none) ∧
    (handleExtractedText extractedText st).columns =
      [some { Header := .str "Line Number", accessor := "id" },
       some { Header := .str "Text", accessor := "text" }] ∧
    (handleExtractedText extractedText st).loading = st.loading ∧
    (handleExtractedText extractedText st).error = st.error ∧
    (handleExtractedText "\n a \n\n" st).fileData =
      [[("id", .num 0), ("text", .str "")], [("id", .num 1), ("text", .str " a ")],
       [("id", .num 2), ("text", .str "")], [("id", .num 3), ("text", .str "")]] := by
  refine ⟨?_, ?_, rfl, rfl, rfl, ?_⟩
  · simp [handleExtractedText, textRows, arrayMap, mapFrom_length, split, splitChars_length]
  · intro i
    simp only [handleExtractedText, textRows, arrayMap, mapFrom_getElem?, split,
      List.getElem?_map, splitChars_getElem?]
    by_cases h : i ≤ extractedText.data.count '\n'
    · simp [h]
    · simp [h]
  · show textRows "\n a \n\n" = _
    decide

/-! ## The workbook claims -/

/-- C1, as stated, fails: two sheets with one header cell each give two columns, and both have the
accessor "col0"; the second sheet does not continue at "col1". -/
theorem C1_counterexample :
    (readerOnload [[[some (.str "A")]], [[some (.str "B")]]]).columns
      = [some { Header := .str "A", accessor := "col0" },
         some { Header := .str "B", accessor := "col0" }] ∧
    ¬ (accessors (readerOnload [[[some (.str "A")]], [[some (.str "B")]]]).columns).Nodup := by
  decide

/-- C1, amended: the columns of a result are the columns of its sheets one after the other in
sheet order; the column of the header cell at position `k` of a sheet has the accessor "col"
followed by `k`, counted from 0 within that sheet; different positions give different accessors,
so the accessors are pairwise distinct among the columns of one sheet, and in the result of a
workbook with one sheet. -/
theorem C1_accessors_distinct_per_sheet (workbook : Workbook) :
    (readerOnload workbook).columns
      = workbook.flatMap (fun sheet => sparseMap headerColumn (sheet.headD [])) ∧
    (∀ (hdr : Row) (k : Nat), (sparseMap headerColumn hdr)[k]? =
      (hdr[k]?).map (Option.map (fun header =>
        ({ Header := if header.truthy then header else .str ("Column " ++ toString (k + 1)),
           accessor := "col" ++ toString k } : ColumnDef)))) ∧
    (∀ a b : Nat, colAccessor a = colAccessor b → a = b) ∧
    (∀ hdr : Row, (accessors (sparseMap headerColumn hdr)).Nodup) ∧
    (∀ sheet : JsonSheet, (accessors (readerOnload [sheet]).columns).Nodup) := by
  refine ⟨readerOnload_columns workbook, ?_, colAccessor_injective, ?_, ?_⟩
  · intro hdr k
    rw [sparseMap, sparseMapFrom_getElem?]
    simp [headerColumn, columnLabel, colAccessor]
  · intro hdr
    rw [sparseMap, accessors_sparseMapFrom]
    exact cellsFrom_keys_nodup 0 hdr
  · intro sheet
    rw [readerOnload_columns]
    simp only [List.flatMap_cons, List.flatMap_nil, List.append_nil]
    rw [sparseMap, accessors_sparseMapFrom]
    exact cellsFrom_keys_nodup 0 _

/-- C2, as stated, fails: with the header row ["A"] and the data row ["x", "y"] the row has the
key "col1" and no column has that accessor. -/
theorem C2_counterexample :
    ¬ (∀ row ∈ (readerOnload [[[some (.str "A")], [some (.str "x"), some (.str "y")]]]).rows,
        ∀ key ∈ objKeys row, key ≠ "id" →
          key ∈ accessors
            (readerOnload [[[some (.str "A")], [some (.str "x"), some (.str "y")]]]).columns) := by
  decide

/-- C2, amended: when no data row has a cell at a position at which the header row of its own
sheet has none, every key other than `id` of every returned row is the accessor of a returned
column. -/
theorem C2_row_keys_are_accessors (workbook : Workbook)
    (h : ∀ sheet ∈ workbook, ∀ row ∈ sheet.drop 1, ∀ (c : Nat) (v : JSVal),
      row[c]? = some (some v) → ∃ header, (sheet.headD [])[c]? = some (some header)) :
    ∀ row ∈ (readerOnload workbook).rows, ∀ key ∈ objKeys row, key ≠ "id" →
      key ∈ accessors (readerOnload workbook).columns := by
  intro row hrow key hkey hne
  rw [readerOnload_rows] at hrow
  rw [readerOnload_columns]
  obtain ⟨sheet, hsheet, hmem⟩ := List.mem_flatMap.mp hrow
  obtain ⟨cells, hcells, j, hj⟩ := mem_mapFrom dataRow 0 _ row hmem
  subst hj
  rw [dataRow_eq] at hkey
  simp only [objKeys, List.map_cons, List.map_map, List.mem_cons] at hkey
  rcases hkey with hkey | hkey
  · exact absurd hkey hne
  · obtain ⟨p, hp, he⟩ := List.mem_map.mp hkey
    obtain ⟨c, v⟩ := p
    have hc : cells[c]? = some (some v) := by
      have := (cellsFrom_mem 0 cells c v).mp (by simpa using hp)
      exact this
    obtain ⟨header, hh⟩ := h sheet hsheet cells hcells c v hc
    apply mem_accessors_flatMap workbook _ key sheet hsheet
    rw [sparseMap, accessors_sparseMapFrom]
    have hm : (0 + c, header) ∈ cellsFrom 0 (sheet.headD []) :=
      (cellsFrom_mem 0 _ c header).mpr hh
    refine List.mem_map.mpr ⟨(0 + c, header), hm, ?_⟩
    simpa using he

/-- C2, amended, at the workbook with the header row ["Name", ""] and the data row ["Ann", 5]:
the data row has cells only where the header row has, and the keys of the row other than `id`
are accessors of the columns. -/
theorem C2_row_keys_are_accessors_witness :
    (∀ sheet ∈ ([[[some (.str "Name"), some (.str "")], [some (.str "Ann"), some (.num 5)]]] :
        Workbook),
      ∀ row ∈ sheet.drop 1, ∀ (c : Nat) (v : JSVal),
        row[c]? = some (some v) → ∃ header, (sheet.headD [])[c]? = some (some header)) ∧
    (∀ row ∈ (readerOnload
        [[[some (.str "Name"), some (.str "")], [some (.str "Ann"), some (.num 5)]]]).rows,
      ∀ key ∈ objKeys row, key ≠ "id" →
        key ∈ accessors (readerOnload
          [[[some (.str "Name"), some (.str "")], [some (.str "Ann"), some (.num 5)]]]).columns) :=
  have hyp : ∀ sheet ∈
      ([[[some (.str "Name"), some (.str "")], [some (.str "Ann"), some (.num 5)]]] : Workbook),
      ∀ row ∈ sheet.drop 1, ∀ (c : Nat) (v : JSVal),
        row[c]? = some (some v) → ∃ header, (sheet.headD [])[c]? = some (some header) := by
    intro sheet hsheet row hrow c v hv
    simp only [List.mem_singleton] at hsheet
    subst hsheet
    simp only [List.drop_succ_cons, List.drop_zero, List.mem_singleton] at hrow
    subst hrow
    match c with
    | 0 => exact ⟨_, rfl⟩
    | 1 => exact ⟨_, rfl⟩
    | c + 2 => simp at hv
  ⟨hyp, C2_row_keys_are_accessors _ hyp⟩

/-- C6, as stated, fails: the header cell 0 is present and not empty, and its column gets the
synthesized header "Column 1", because the number 0 is falsy. -/
theorem C6_counterexample :
    (readerOnload [[[some (.num 0)]]]).columns
      = [some { Header := .str "Column 1", accessor := "col0" }] ∧
    (readerOnload [[[some (.num 0)]]]).columns
      ≠ arrayMap (fun cell k => some (claimedColumn cell k)) [some (.num 0)] := by
  decide

/-- C6, amended: for a workbook of one sheet whose header row has `n` cells, none missing, the
result has `n` columns; the column at position `k` has the accessor "col" followed by `k` and as
header the raw value of the header cell when that value is truthy, and "Column " followed by
`k + 1` when it is falsy; there is one row per data row, row `j` being `id: j` followed by
the accessor of position `c` with the raw value of the cell, for every cell present in the row.
The header row ["Name", ""] with the data row ["Ann", 5] gives the result of the specification. -/
theorem C6_single_sheet (header : List JSVal) (dataRows : List Row) :
    (readerOnload [header.map some :: dataRows]).columns.length = header.length ∧
    (∀ k, (readerOnload [header.map some :: dataRows]).columns[k]? =
      (header[k]?).map (fun cell => some
        ({ Header := if cell.truthy then cell else .str ("Column " ++ toString (k + 1)),
           accessor := "col" ++ toString k } : ColumnDef))) ∧
    (readerOnload [header.map some :: dataRows]).rows.length = dataRows.length ∧
    (∀ j, (readerOnload [header.map some :: dataRows]).rows[j]? =
      (dataRows[j]?).map (fun row =>
        ("id", JSVal.num (Int.ofNat j)) ::
          (cellsFrom 0 row).map (fun p => ("col" ++ toString p.1, p.2)))) ∧
    (∀ (row : Row) (c : Nat) (v : JSVal), (c, v) ∈ cellsFrom 0 row ↔ row[c]? = some (some v)) ∧
    readerOnload [[[some (.str "Name"), some (.str "")], [some (.str "Ann"), some (.num 5)]]] =
      { rows := [[("id", .num 0), ("col0", .str "Ann"), ("col1", .num 5)]],
        columns := [some { Header := .str "Name", accessor := "col0" },
                    some { Header := .str "Column 2", accessor := "col1" }] } := by
  refine ⟨?_, ?_, ?_, ?_, ?_, by decide⟩
  · simp [readerOnload_columns, sparseMap, sparseMapFrom_length]
  · intro k
    simp only [readerOnload_columns, List.flatMap_cons, List.flatMap_nil, List.append_nil,
      List.headD_cons, sparseMap, sparseMapFrom_getElem?, List.getElem?_map, Option.map_map]
    cases header[k]? with
    | none => rfl
    | some cell => simp [headerColumn, columnLabel, colAccessor]
  · simp [readerOnload_rows, arrayMap, mapFrom_length]
  · intro j
    simp only [readerOnload_rows, List.flatMap_cons, List.flatMap_nil, List.append_nil,
      List.drop_succ_cons, List.drop_zero, arrayMap, mapFrom_getElem?]
    cases dataRows[j]? with
    | none => rfl
    | some row =>
      simp only [Option.map_some', Nat.zero_add, dataRow_eq]
      rfl
  · intro row c v
    have := cellsFrom_mem 0 row c v
    simpa using this

/-- C7: the rows of a result are the data rows of the sheets, all rows after the first of each
sheet, one sheet after the other in sheet order; the row made from the data row at position `j`
of its sheet has `id` equal to `j`, counted from 0 within that sheet; two sheets with a header
row and one data row each give two rows, both with `id` 0. -/
theorem C7_rows_flat_ids_per_sheet (workbook : Workbook) :
    (readerOnload workbook).rows
      = workbook.flatMap (fun sheet => arrayMap dataRow (sheet.drop 1)) ∧
    (∀ (sheet : JsonSheet) (j : Nat),
      (arrayMap dataRow (sheet.drop 1))[j]? = (sheet[j + 1]?).map (fun row => dataRow row j)) ∧
    (∀ (sheet : JsonSheet), (arrayMap dataRow (sheet.drop 1)).length = sheet.length - 1) ∧
    (∀ (row : Row) (j : Nat), objGet (dataRow row j) "id" = some (.num (Int.ofNat j))) ∧
    (∀ (row : Row) (j c : Nat), objGet (dataRow row j) (colAccessor c) = (row[c]?).join) ∧
    (∀ h1 d1 h2 d2 : Row,
      (readerOnload [[h1, d1], [h2, d2]]).rows = [dataRow d1 0, dataRow d2 0] ∧
      (readerOnload [[h1, d1], [h2, d2]]).rows.map (fun row => objGet row "id")
        = [some (.num 0), some (.num 0)]) := by
  have hid : ∀ (row : Row) (j : Nat), objGet (dataRow row j) "id" = some (.num (Int.ofNat j)) := by
    intro row j
    rw [dataRow_eq]
    simp [objGet]
  refine ⟨readerOnload_rows workbook, ?_, ?_, hid, ?_, ?_⟩
  · intro sheet j
    simp [arrayMap, mapFrom_getElem?, List.getElem?_drop, Nat.add_comm]
  · intro sheet
    simp [arrayMap, mapFrom_length]
  · intro row j c
    rw [dataRow_eq, objGet, if_neg (fun e => colAccessor_ne_id c e.symm)]
    simpa using objGet_cellsFrom 0 row c
  · intro h1 d1 h2 d2
    have hrows : (readerOnload [[h1, d1], [h2, d2]]).rows = [dataRow d1 0, dataRow d2 0] := by
      simp [readerOnload_rows, arrayMap, mapFrom]
    refine ⟨hrows, ?_⟩
    rw [hrows]
    simp [hid]

/-- C9: a sheet without rows adds nothing, whatever has been collected before it; a workbook
without sheets, or with sheets that all have no rows, gives the empty result, and the promise is
resolved with it; dropping a sheet without rows from a workbook does not change the result. -/
theorem C9_empty_workbook (workbook before after : Workbook)
    (h : ∀ sheet ∈ workbook, sheet = []) :
    readerOnload workbook = { rows := [], columns := [] } ∧
    extractDataFromExcel (.parsed workbook) = .resolved { rows := [], columns := [] } ∧
    (∀ acc : Extracted, processSheet acc [] = acc) ∧
    readerOnload (before ++ [] :: after) = readerOnload (before ++ after) := by
  have hempty : readerOnload workbook = { rows := [], columns := [] } := by
    have hr := readerOnload_rows workbook
    have hc := readerOnload_columns workbook
    have hr0 : workbook.flatMap (fun sheet => arrayMap dataRow (sheet.drop 1)) = [] := by
      rw [List.flatMap_eq_nil_iff]
      intro sheet hs
      rw [h sheet hs]
      rfl
    have hc0 : workbook.flatMap (fun sheet => sparseMap headerColumn (sheet.headD [])) = [] := by
      rw [List.flatMap_eq_nil_iff]
      intro sheet hs
      rw [h sheet hs]
      rfl
    rw [hr0] at hr
    rw [hc0] at hc
    cases hres : readerOnload workbook with
    | mk rows columns =>
      rw [hres] at hr hc
      simp only at hr hc
      rw [hr, hc]
  refine ⟨hempty, ?_, ?_, ?_⟩
  · rw [extractDataFromExcel, hempty]
  · intro acc
    rfl
  · have hr1 := readerOnload_rows (before ++ [] :: after)
    have hc1 := readerOnload_columns (before ++ [] :: after)
    have hr2 := readerOnload_rows (before ++ after)
    have hc2 := readerOnload_columns (before ++ after)
    cases h1 : readerOnload (before ++ [] :: after) with
    | mk rows1 columns1 =>
      cases h2 : readerOnload (before ++ after) with
      | mk rows2 columns2 =>
        rw [h1] at hr1 hc1
        rw [h2] at hr2 hc2
        simp only at hr1 hc1 hr2 hc2
        rw [hr1, hc1, hr2, hc2]
        simp [List.flatMap_append, List.flatMap_cons, arrayMap, mapFrom, sparseMap,
          sparseMapFrom]

/-- C9 at the workbook with two sheets that have no rows. -/
theorem C9_empty_workbook_witness :
    (∀ sheet ∈ ([[], []] : Workbook), sheet = []) ∧
    readerOnload [[], []] = { rows := [], columns := [] } ∧
    extractDataFromExcel (.parsed [[], []]) = .resolved { rows := [], columns := [] } ∧
    (∀ acc : Extracted, processSheet acc [] = acc) ∧
    readerOnload ([[some (.str "A")]] :: [] :: [[[some (.str "B")]]])
      = readerOnload ([[some (.str "A")]] :: [[[some (.str "B")]]]) :=
  ⟨by decide, C9_empty_workbook [[], []] [[[some (.str "A")]]] [[[some (.str "B")]]] (by decide)⟩

/-! ## Dispatch on the media type -/

theorem startsWith_iff (s pre : String) :
    startsWith s pre = true ↔ ∃ rest, s.data = pre.data ++ rest := by
  rw [startsWith, List.isPrefixOf_iff_prefix]
  constructor
  · rintro ⟨rest, h⟩
    exact ⟨rest, h.symm⟩
  · rintro ⟨rest, h⟩
    exact ⟨rest, h.symm⟩

theorem includesChars_iff (sub s : List Char) :
    includesChars sub s = true ↔ ∃ a b, s = a ++ sub ++ b := by
  induction s with
  | nil =>
    rw [includesChars, List.isPrefixOf_iff_prefix]
    constructor
    · rintro ⟨rest, h⟩
      exact ⟨[], rest, by simpa using h.symm⟩
    · rintro ⟨a, b, h⟩
      have h1 := congrArg List.length h
      simp only [List.length_nil, List.length_append] at h1
      have hsub : sub = [] := List.eq_nil_of_length_eq_zero (by omega)
      subst hsub
      exact ⟨[], rfl⟩
  | cons c cs ih =>
    rw [includesChars, Bool.or_eq_true, List.isPrefixOf_iff_prefix, ih]
    constructor
    · rintro (⟨rest, h⟩ | ⟨a, b, h⟩)
      · exact ⟨[], rest, by simpa using h.symm⟩
      · exact ⟨c :: a, b, by simp [h]⟩
    · rintro ⟨a, b, h⟩
      cases a with
      | nil => exact Or.inl ⟨b, by simpa using h.symm⟩
      | cons a0 a =>
        simp only [List.cons_append, List.cons.injEq] at h
        exact Or.inr ⟨a, b, h.2⟩

theorem includes_iff (s sub : String) :
    includes s sub = true ↔ ∃ a b, s.data = a ++ sub.data ++ b := by
  rw [includes, includesChars_iff]

theorem dispatch_image_iff (type : String) :
    dispatch type = .image ↔ ∃ rest, type.data = "image/".data ++ rest := by
  rw [← startsWith_iff type "image/", dispatch]
  generalize startsWith type "image/" = p
  generalize (includes type "sheet" || includes type "excel" ||
    includes type "spreadsheetml") = q
  cases p <;> cases q <;> simp

theorem dispatch_spreadsheet_iff (type : String) :
    dispatch type = .spreadsheet ↔
      (¬ ∃ rest, type.data = "image/".data ++ rest) ∧
      ((∃ a b, type.data = a ++ "sheet".data ++ b) ∨ (∃ a b, type.data = a ++ "excel".data ++ b) ∨
        (∃ a b, type.data = a ++ "spreadsheetml".data ++ b)) := by
  rw [← startsWith_iff type "image/", ← includes_iff type "sheet", ← includes_iff type "excel",
    ← includes_iff type "spreadsheetml", dispatch]
  generalize startsWith type "image/" = p
  generalize includes type "sheet" = q1
  generalize includes type "excel" = q2
  generalize includes type "spreadsheetml" = q3
  cases p <;> cases q1 <;> cases q2 <;> cases q3 <;> simp

theorem dispatch_unsupported_iff (type : String) :
    dispatch type = .unsupported ↔
      (¬ ∃ rest, type.data = "image/".data ++ rest) ∧
      ¬ ((∃ a b, type.data = a ++ "sheet".data ++ b) ∨ (∃ a b, type.data = a ++ "excel".data ++ b) ∨
        (∃ a b, type.data = a ++ "spreadsheetml".data ++ b)) := by
  rw [← startsWith_iff type "image/", ← includes_iff type "sheet", ← includes_iff type "excel",
    ← includes_iff type "spreadsheetml", dispatch]
  generalize startsWith type "image/" = p
  generalize includes type "sheet" = q1
  generalize includes type "excel" = q2
  generalize includes type "spreadsheetml" = q3
  cases p <;> cases q1 <;> cases q2 <;> cases q3 <;> simp

/-- C8: for every media type, whatever the state and the file's content, `handleFileChange` does
the following, the first condition that holds deciding.  When the media type starts with "image/"
it runs the image branch: it preprocesses the image, has the binarized buffer recognized and
stores the rows and columns of `handleExtractedText` for the text; the workbook is not read.
Otherwise, when the media type contains "sheet", "excel" or "spreadsheetml" in that spelling, it
runs the spreadsheet branch: it stores the rows and the columns of `extractDataFromExcel`; the
image is not looked at.  Otherwise it runs neither branch: it calls `alert` with the message
"Unsupported file type. Please upload an image or Excel file." and leaves rows and columns as
they were.  "image/png" runs the image branch, the media type of an xlsx workbook the spreadsheet
branch, and "text/plain" gets the alert. -/
theorem C8_dispatch (type : String) (st : State) (loadImage : Promise (List Nat))
    (recognize : List Nat → Promise String) (read : ReadOutcome) :
    (dispatch type = .image ↔ ∃ rest, type.data = "image/".data ++ rest) ∧
    (dispatch type = .spreadsheet ↔
      (¬ ∃ rest, type.data = "image/".data ++ rest) ∧
      ((∃ a b, type.data = a ++ "sheet".data ++ b) ∨ (∃ a b, type.data = a ++ "excel".data ++ b) ∨
        (∃ a b, type.data = a ++ "spreadsheetml".data ++ b))) ∧
    (dispatch type = .unsupported ↔
      (¬ ∃ rest, type.data = "image/".data ++ rest) ∧
      ¬ ((∃ a b, type.data = a ++ "sheet".data ++ b) ∨ (∃ a b, type.data = a ++ "excel".data ++ b) ∨
        (∃ a b, type.data = a ++ "spreadsheetml".data ++ b))) ∧
    dispatch "image/png" = .image ∧
    dispatch "application/vnd.openxmlformats-officedocument.spreadsheetml.sheet" = .spreadsheet ∧
    dispatch "text/plain" = .unsupported ∧
    dispatch "image/sheet" = .image ∧
    dispatch "application/vnd.ms-excel" = .spreadsheet ∧
    dispatch "application/vnd.ms-EXCEL" = .unsupported ∧
    ((∃ rest, type.data = "image/".data ++ rest) →
      handleFileChange st
          (some { type := type, loadImage := loadImage, recognize := recognize, read := read }) =
        match loadImage with
        | .pending =>
          { state := { st with loading := true, error := none }, finished := false,
            alert := none }
        | .rejected =>
          { state := { st with loading := false,
                               error := some "Error extracting text from the file." },
            finished := true, alert := none }
        | .resolved data =>
          match recognize (enhanceContrastAndSharpness data) with
          | .pending =>
            { state := { st with loading := true, error := none }, finished := false,
              alert := none }
          | .rejected =>
            { state := { st with loading := false,
                                 error := some "Error extracting text from the file." },
              finished := true, alert := none }
          | .resolved extractedText =>
            { state :=
                { fileData := arrayMap
                    (fun (line : String) (index : Nat) =>
                      ([("id", JSVal.num (Int.ofNat index)), ("text", JSVal.str line)] : Obj))
                    (split extractedText '\n'),
                  columns := [some { Header := .str "Line Number", accessor := "id" },
                              some { Header := .str "Text", accessor := "text" }],
                  loading := false, error := none },
              finished := true, alert := none }) ∧
    ((¬ ∃ rest, type.data = "image/".data ++ rest) →
      ((∃ a b, type.data = a ++ "sheet".data ++ b) ∨ (∃ a b, type.data = a ++ "excel".data ++ b) ∨
        (∃ a b, type.data = a ++ "spreadsheetml".data ++ b)) →
      handleFileChange st
          (some { type := type, loadImage := loadImage, recognize := recognize, read := read }) =
        match read with
        | .readError =>
          { state := { st with loading := false,
                               error := some "Error extracting text from the file." },
            finished := true, alert := none }
        | .parseThrows =>
          { state := { st with loading := true, error := none }, finished := false,
            alert := none }
        | .parsed workbook =>
          { state := { fileData := (readerOnload workbook).rows,
                       columns := (readerOnload workbook).columns,
                       loading := false, error := none },
            finished := true, alert := none }) ∧
    ((¬ ∃ rest, type.data = "image/".data ++ rest) →
      ¬ ((∃ a b, type.data = a ++ "sheet".data ++ b) ∨ (∃ a b, type.data = a ++ "excel".data ++ b) ∨
        (∃ a b, type.data = a ++ "spreadsheetml".data ++ b)) →
      handleFileChange st
          (some { type := type, loadImage := loadImage, recognize := recognize, read := read }) =
        { state := { st with loading := false, error := none }, finished := true,
          alert := some "Unsupported file type. Please upload an image or Excel file." }) ∧
    handleFileChange st
        (some { type := "image/png", loadImage := .resolved [200, 100, 129, 7],
                recognize := fun data =>
                  if data = [255, 0, 255, 7] then .resolved "a\nb" else .rejected,
                read := .parsed [[[some (.str "Name")], [some (.str "Ann")]]] }) =
      { state :=
          { fileData := [[("id", .num 0), ("text", .str "a")], [("id", .num 1), ("text", .str "b")]],
            columns := [some { Header := .str "Line Number", accessor := "id" },
                        some { Header := .str "Text", accessor := "text" }],
            loading := false, error := none },
        finished := true, alert := none } ∧
    handleFileChange st
        (some { type := "application/vnd.openxmlformats-officedocument.spreadsheetml.sheet",
                loadImage := .resolved [200, 100, 129, 7],
                recognize := fun _ => .resolved "a\nb",
                read := .parsed [[[some (.str "Name")], [some (.str "Ann")]]] }) =
      { state :=
          { fileData := [[("id", .num 0), ("col0", .str "Ann")]],
            columns := [some { Header := .str "Name", accessor := "col0" }],
            loading := false, error := none },
        finished := true, alert := none } ∧
    handleFileChange st
        (some { type := "text/plain", loadImage := .resolved [200, 100, 129, 7],
                recognize := fun _ => .resolved "a\nb",
                read := .parsed [[[some (.str "Name")], [some (.str "Ann")]]] }) =
      { state := { st with loading := false, error := none }, finished := true,
        alert := some "Unsupported file type. Please upload an image or Excel file." } := by
  have hpng : dispatch "image/png" = .image := by decide
  have hxlsx :
      dispatch "application/vnd.openxmlformats-officedocument.spreadsheetml.sheet"
        = .spreadsheet := by decide
  have htxt : dispatch "text/plain" = .unsupported := by decide
  refine ⟨dispatch_image_iff type, dispatch_spreadsheet_iff type, dispatch_unsupported_iff type,
    hpng, hxlsx, htxt, by decide, by decide, by decide, ?_, ?_, ?_, ?_, ?_, ?_⟩
  · intro himg
    have hd : dispatch type = .image := (dispatch_image_iff type).mpr himg
    cases hl : loadImage with
    | pending => simp [handleFileChange, hd, preprocessImage, hl, suspended]
    | rejected => simp [handleFileChange, hd, preprocessImage, hl, caught]
    | resolved data =>
      cases hr : recognize (enhanceContrastAndSharpness data) with
      | pending =>
        simp [handleFileChange, hd, preprocessImage, hl, extractTextFromImage, hr, suspended]
      | rejected =>
        simp [handleFileChange, hd, preprocessImage, hl, extractTextFromImage, hr, caught]
      | resolved text =>
        simp [handleFileChange, hd, preprocessImage, hl, extractTextFromImage, hr, completed,
          handleExtractedText, textRows, textColumns]
  · intro hnot hsome
    have hd : dispatch type = .spreadsheet := (dispatch_spreadsheet_iff type).mpr ⟨hnot, hsome⟩
    cases hr : read with
    | readError => simp [handleFileChange, hd, hr, extractDataFromExcel, caught]
    | parseThrows => simp [handleFileChange, hd, hr, extractDataFromExcel, suspended]
    | parsed workbook => simp [handleFileChange, hd, hr, extractDataFromExcel, completed]
  · intro hnot hnone
    have hd : dispatch type = .unsupported := (dispatch_unsupported_iff type).mpr ⟨hnot, hnone⟩
    simp [handleFileChange, hd, completed]
  · have hb : enhanceContrastAndSharpness [200, 100, 129, 7] = [255, 0, 255, 7] := by
      simp [enhanceContrastAndSharpness, enhanceLoop, threshold]
    have ht : textRows "a\nb"
        = [[("id", .num 0), ("text", .str "a")], [("id", .num 1), ("text", .str "b")]] := by
      decide
    simp [handleFileChange, hpng, preprocessImage, extractTextFromImage, hb, completed,
      handleExtractedText, ht, textColumns]
  · have hw : readerOnload [[[some (.str "Name")], [some (.str "Ann")]]]
        = { rows := [[("id", .num 0), ("col0", .str "Ann")]],
            columns := [some { Header := .str "Name", accessor := "col0" }] } := by
      decide
    simp [handleFileChange, hxlsx, extractDataFromExcel, hw, completed]
  · simp [handleFileChange, htxt, completed]

/-! ## The component state -/

/-- What a call of `handleFileChange` does when every promise it awaits settles: it finishes with
`loading` false, and either the stored rows and columns are untouched, with the error message set
or the alert shown, or no error is set and the rows and the columns are both those of one new
result: those of `handleExtractedText` for the recognized text, or those of the workbook. -/
theorem handleFileChange_settled (st : State) (file : File)
    (h1 : file.loadImage ≠ .pending) (h2 : ∀ image, file.recognize image ≠ .pending)
    (h3 : file.read ≠ .parseThrows) :
    (handleFileChange st (some file)).finished = true ∧
    (handleFileChange st (some file)).state.loading = false ∧
    (((handleFileChange st (some file)).state.fileData = st.fileData ∧
      (handleFileChange st (some file)).state.columns = st.columns ∧
      ((handleFileChange st (some file)).state.error
          = some "Error extracting text from the file." ∨
        ((handleFileChange st (some file)).state.error = none ∧
          (handleFileChange st (some file)).alert
            = some "Unsupported file type. Please upload an image or Excel file."))) ∨
     ((handleFileChange st (some file)).state.error = none ∧
      ((∃ data text, file.loadImage = .resolved data ∧
          file.recognize (enhanceContrastAndSharpness data) = .resolved text ∧
          (handleFileChange st (some file)).state.fileData = textRows text ∧
          (handleFileChange st (some file)).state.columns = textColumns) ∨
       (∃ workbook, file.read = .parsed workbook ∧
          (handleFileChange st (some file)).state.fileData = (readerOnload workbook).rows ∧
          (handleFileChange st (some file)).state.columns
            = (readerOnload workbook).columns)))) := by
  cases hd : dispatch file.type with
  | image =>
    cases hl : file.loadImage with
    | pending => exact absurd hl h1
    | rejected => simp [handleFileChange, hd, preprocessImage, hl, caught]
    | resolved data =>
      cases hr : file.recognize (enhanceContrastAndSharpness data) with
      | pending => exact absurd hr (h2 _)
      | rejected =>
        simp [handleFileChange, hd, preprocessImage, hl, extractTextFromImage, hr, caught]
      | resolved text =>
        have he : handleFileChange st (some file) =
            completed (handleExtractedText text { st with loading := true, error := none })
              none := by
          simp [handleFileChange, hd, preprocessImage, hl, extractTextFromImage, hr]
        rw [he]
        exact ⟨rfl, rfl, Or.inr ⟨rfl, Or.inl ⟨data, text, rfl, hr, rfl, rfl⟩⟩⟩
  | spreadsheet =>
    cases hr : file.read with
    | readError => simp [handleFileChange, hd, hr, extractDataFromExcel, caught]
    | parseThrows => exact absurd hr h3
    | parsed workbook =>
      have he : handleFileChange st (some file) =
          completed { st with loading := true, error := none,
                              fileData := (readerOnload workbook).rows,
                              columns := (readerOnload workbook).columns } none := by
        simp [handleFileChange, hd, hr, extractDataFromExcel]
      rw [he]
      exact ⟨rfl, rfl, Or.inr ⟨rfl, Or.inr ⟨workbook, rfl, rfl, rfl⟩⟩⟩
  | unsupported => simp [handleFileChange, hd, completed]

/-- C10 at a spreadsheet file on which `XLSX.read` throws inside `reader.onload`: the promise of
`extractDataFromExcel` never settles, so the call stays suspended at its `await`; the rows and
columns are untouched, the error message is not set and `loading` stays true. -/
theorem C10_parse_failure_is_not_reported (st : State) (loadImage : Promise (List Nat))
    (recognize : List Nat → Promise String) :
    handleFileChange st
        (some { type := "application/vnd.ms-excel", loadImage := loadImage,
                recognize := recognize, read := .parseThrows })
      = { state := { st with loading := true, error := none }, finished := false,
          alert := none } := by
  have hd : dispatch "application/vnd.ms-excel" = .spreadsheet := by decide
  simp [handleFileChange, hd, extractDataFromExcel, suspended]

end StarScan

